import Mathlib

/-!
Verification development for the PC-Cleaner directory scanner (`src/main.py`).

The program locates the N largest files under a root directory and reports
their aggregate size, tolerating filesystem permission errors.  We embed the
relevant functions shallowly:

* the filesystem is a finite tree `FsEntry`; each entry carries the boolean
  outcomes of the OS calls the program makes on it (`readable` is the result
  of `has_read_access`, `listErr` says whether `iterdir` raises an OS error,
  `childErr` says whether touching the entry from its parent's loop body
  raises, and `vanish` says at which stage of the run the file disappears,
  making later `stat` calls fail);
* `safe_iter_files` embeds the generator `safe_iter_files` (lines 55-70): a total
  function returning the yielded files and the logged warnings — totality is
  the code's `try/except` blocks, which convert every OS error into a
  warning;
* `nlargest` embeds `heapq.nlargest(limit, files, key=lambda x:
  x.stat().st_size)` (line 79), documented by Python as equivalent to
  `sorted(iterable, key=key, reverse=True)[:n]`; the key calls `stat`, which
  raises for a vanished file, so the embedding returns `Except`;
* `calcDirSize` embeds `calc_dir_size` (lines 91-93), the second traversal;
  a file that vanished before this traversal is no longer enumerated by it;
* `pyMain` embeds the program entry point `main` (lines 103-125) including its exit behaviour.
-/

open List

/-- At which stage of a run a file vanishes (so that `stat` on it starts
failing). `duringSelect`: after being yielded by the walker but before
`heapq.nlargest` reads its size; `afterSelect`: after top-N selection, before
the display/total stages. -/
inductive Vanish where
  | never
  | duringSelect
  | afterSelect
deriving DecidableEq, Repr

/-- A filesystem entry together with the outcomes of the OS calls the
program performs on it.  `readable` is the value `has_read_access` returns
for the entry; `listErr` (directories) makes `iterdir` raise; `childErr`
makes the per-child statements of the parent's loop body (lines 62-66)
raise for this entry. -/
inductive FsEntry where
  | file (name : String) (size : Nat) (readable : Bool) (childErr : Bool) (vanish : Vanish)
  | dir (name : String) (readable : Bool) (listErr : Bool) (childErr : Bool)
      (children : List FsEntry)

/-- A file yielded by the walker: its full path, its size, and when (if
ever) it vanishes. -/
structure FileRef where
  path : List String
  size : Nat
  vanish : Vanish
deriving DecidableEq, Repr

/-- A warning logged by `safe_iter_files`: `perm` is line 59
("Sem permissão para acessar"), `oserr` is lines 68/70 ("Erro ao acessar"),
each naming the offending path. -/
inductive Warn where
  | perm (p : List String)
  | oserr (p : List String)
deriving DecidableEq, Repr

def entryName : FsEntry → String
  | .file n _ _ _ _ => n
  | .dir n _ _ _ _ => n

mutual

/-- Embedding of `safe_iter_files(path)` (lines 55-70) called on entry `e`
whose path is `p`, for one full consumption of the generator.  `pass2` is
true for the second traversal (the one started by `calc_dir_size`), in which
files that vanished earlier in the run are no longer listed by `iterdir`.
Returns the files yielded and the warnings logged.  On a non-directory the
`iterdir` call raises `NotADirectoryError`, caught by the outer `except`
(line 69). -/
def safe_iter_files (pass2 : Bool) (p : List String) (e : FsEntry) : List FileRef × List Warn :=
  match e with
  | .file _ _ readable _ _ =>
    if readable = false then ([], [Warn.perm p]) else ([], [Warn.oserr p])
  | .dir _ readable listErr _ children =>
    if readable = false then ([], [Warn.perm p])
    else if listErr = true then ([], [Warn.oserr p])
    else walkList pass2 p children

/-- The walker's loop over the children of a directory at path `p`
(lines 61-68): each child is processed independently and the results are
concatenated. -/
def walkList (pass2 : Bool) (p : List String) (cs : List FsEntry) : List FileRef × List Warn :=
  match cs with
  | [] => ([], [])
  | c :: rest =>
    let hd := walkChild pass2 (p ++ [entryName c]) c
    let tl := walkList pass2 p rest
    (hd.1 ++ tl.1, hd.2 ++ tl.2)

/-- The loop body for one child at path `q` (lines 62-68): an OS error while
touching the child is caught and logged (line 67); a directory child is
recursed into via `yield from safe_iter_files(entry)` (the recursion's own
root-permission and `iterdir` checks are inlined here); a regular-file child
is yielded when it passes `has_read_access`, and skipped silently otherwise.
In a second traversal a vanished file is no longer listed at all. -/
def walkChild (pass2 : Bool) (q : List String) (c : FsEntry) : List FileRef × List Warn :=
  match c with
  | .file _ size readable childErr vanish =>
    if pass2 = true ∧ vanish ≠ Vanish.never then ([], [])
    else if childErr = true then ([], [Warn.oserr q])
    else if readable = true then ([⟨q, size, vanish⟩], []) else ([], [])
  | .dir _ readable listErr childErr children =>
    if childErr = true then ([], [Warn.oserr q])
    else if readable = false then ([], [Warn.perm q])
    else if listErr = true then ([], [Warn.oserr q])
    else walkList pass2 q children

end

/-- Embedding of the key function `lambda x: x.stat().st_size` (line 79):
`stat` raises for a vanished file.  During selection, a file with
`vanish = duringSelect` has already vanished, so its key raises. -/
def fileKey (f : FileRef) : Except Unit Nat :=
  match f.vanish with
  | Vanish.duringSelect => Except.error ()
  | _ => Except.ok f.size

/-- `heapq.nlargest` evaluates the key of every consumed element; the first
failure propagates.  This computes all keys, pairing each with its file. -/
def keyAll : List FileRef → Except Unit (List (Nat × FileRef))
  | [] => Except.ok []
  | f :: fs =>
    match fileKey f, keyAll fs with
    | Except.error e, _ => Except.error e
    | Except.ok _, Except.error e => Except.error e
    | Except.ok k, Except.ok rest => Except.ok ((k, f) :: rest)

/-- The comparison `heapq.nlargest` sorts by: descending key (stable). -/
def keyGE (a b : Nat × FileRef) : Prop := b.1 ≤ a.1

instance : DecidableRel keyGE := fun a b => Nat.decLe b.1 a.1

instance : IsTotal (Nat × FileRef) keyGE := ⟨fun a b => Nat.le_total b.1 a.1⟩

instance : IsTrans (Nat × FileRef) keyGE :=
  ⟨fun _ _ _ h1 h2 => Nat.le_trans h2 h1⟩

/-- Embedding of `heapq.nlargest(n, files, key)` (line 79).  Per the Python
documentation it is equivalent to `sorted(iterable, key=key, reverse=True)[:n]`;
with `n <= 0` it returns `[]` without consuming the iterable or evaluating
any key; otherwise it consumes the whole iterable and evaluates the key of
every element, so a failing `stat` propagates out. -/
def nlargest (n : Int) (files : List FileRef) : Except Unit (List FileRef) :=
  if n ≤ 0 then Except.ok []
  else
    match keyAll files with
    | Except.error e => Except.error e
    | Except.ok keyed =>
      Except.ok (((keyed.insertionSort keyGE).take n.toNat).map Prod.snd)

/-- Embedding of `list_highest_files(path, limit)` (lines 73-79): one fresh
traversal of the tree (first pass), then `heapq.nlargest`. -/
def list_highest_files (t : FsEntry) (limit : Int) : Except Unit (List FileRef) :=
  nlargest limit (safe_iter_files false [entryName t] t).1

/-- Embedding of `calc_dir_size(path)` (lines 91-93): a second fresh
traversal; `stat` of each file yielded by it succeeds because files that
vanished earlier in the run are no longer enumerated in the second pass. -/
def calc_dir_size (t : FsEntry) : Nat :=
  ((safe_iter_files true [entryName t] t).1.map FileRef.size).sum

/-- Embedding of `has_read_access(path)` (lines 35-52).  `osAccess` is the
result of `os.access(path, os.R_OK)`; `hasWin32` says whether the win32
modules imported; `sdDacl` is the outcome of the security-descriptor query:
`Except.error ()` if `GetFileSecurity`/`GetSecurityDescriptorDacl` raises,
otherwise `Except.ok d` with `d = none` when the descriptor has no DACL. -/
def has_read_access (osAccess : Bool) (hasWin32 : Bool)
    (sdDacl : Except Unit (Option Unit)) : Bool :=
  if osAccess then true
  else if hasWin32 then
    match sdDacl with
    | Except.error _ => false
    | Except.ok none => true
    | Except.ok (some _) => false
  else false

/-- Result of one run of the entry point `main` (lines 103-125).  `crashed`
means an exception escaped `main` (Python then exits 1); `topShown` lists each
selected file together with `some size` if its line printed normally, or
`none` if the `stat` at line 118 raised and the warning at line 120 was
logged instead; `totalShown` is the total printed at line 123 (`none` if
never reached); `traversals` counts how many times a `safe_iter_files`
generator at the root was actually consumed. -/
structure MainResult where
  exitCode : Nat
  crashed : Bool
  noFilesMsg : Bool
  topShown : List (FileRef × Option Nat)
  totalShown : Option Nat
  traversals : Nat
deriving DecidableEq, Repr

/-- The display line for one selected file (lines 116-120): the `stat` at
line 118 succeeds only if the file has not vanished. -/
def displayEntry (f : FileRef) : FileRef × Option Nat :=
  (f, if f.vanish = Vanish.never then some f.size else none)

/-- Embedding of the entry point `main` (lines 103-125), which Lean reserves
as a name, hence `pyMain`.  `pathExists` is the result of
`args.path.exists()`.  The call to `list_highest_files` at line 111 is not
inside any `try`, so an error from it crashes the program.  With
`limit <= 0` the top-N generator is created but never consumed, so only the
`calc_dir_size` traversal runs. -/
def pyMain (pathExists : Bool) (root : FsEntry) (limit : Int) : MainResult :=
  if pathExists = false then ⟨1, false, false, [], none, 0⟩
  else
    match list_highest_files root limit with
    | Except.error _ => ⟨1, true, false, [], none, 1⟩
    | Except.ok files =>
      ⟨0, false, files.isEmpty, files.map displayEntry, some (calc_dir_size root),
        if limit ≤ 0 then 1 else 2⟩

/-- Two-decimal fixed-point rendering of a nonnegative rational, as
Python's `f"{size:.2f}"` produces for the (binary-rational) values reached
by `format_size`; ties at the third decimal cannot occur for binary
rationals, so round-half is exact. -/
def fmt2 (q : ℚ) : String :=
  let c : ℤ := ⌊q * 100 + 1 / 2⌋
  let ip := c / 100
  let fp := c % 100
  toString ip ++ "." ++ (if fp < 10 then "0" ++ toString fp else toString fp)

/-- The loop of `format_size` (lines 84-87): try each unit, dividing by
1024; after exhausting the list, line 88 returns petabytes. -/
def formatSizeGo : List String → ℚ → String
  | [], q => fmt2 q ++ " PB"
  | u :: us, q => if q < 1024 then fmt2 q ++ " " ++ u else formatSizeGo us (q / 1024)

/-- Embedding of `format_size(size)` (lines 82-88). -/
def format_size (q : ℚ) : String :=
  formatSizeGo ["B", "KB", "MB", "GB", "TB"] q

/-- The unit index the spec prescribes: the smallest unit (0 = B, 1 = KB,
..., 5 = PB) at which the displayed value `size / 1024 ^ k` is below 1024,
petabytes being unbounded. -/
def specUnitIndex (n : ℕ) : ℕ :=
  if n < 1024 then 0
  else if n < 1024 ^ 2 then 1
  else if n < 1024 ^ 3 then 2
  else if n < 1024 ^ 4 then 3
  else if n < 1024 ^ 5 then 4
  else 5

/-- Unit names in ascending order. -/
def unitName (k : ℕ) : String :=
  List.getD ["B", "KB", "MB", "GB", "TB", "PB"] k "PB"

mutual

/-- A tree on which no OS call fails mid-scan: no `iterdir` errors, no
per-child errors, and no file vanishes during the run.  Permission bits
(`readable`) are unconstrained. -/
def stable (e : FsEntry) : Bool :=
  match e with
  | .file _ _ _ childErr vanish => !childErr && vanish = Vanish.never
  | .dir _ _ listErr childErr children => !listErr && !childErr && stableList children

def stableList (cs : List FsEntry) : Bool :=
  match cs with
  | [] => true
  | c :: rest => stable c && stableList rest

end

mutual

/-- No file in the tree vanishes during top-N selection (it may still
vanish after selection). -/
def noDuringSelect (e : FsEntry) : Bool :=
  match e with
  | .file _ _ _ _ vanish => !(vanish = Vanish.duringSelect)
  | .dir _ _ _ _ children => noDuringSelectList children

def noDuringSelectList (cs : List FsEntry) : Bool :=
  match cs with
  | [] => true
  | c :: rest => noDuringSelect c && noDuringSelectList rest

end

mutual

/-- Sibling names are pairwise distinct at every level (true of a real
filesystem directory). -/
def nodupNames (e : FsEntry) : Bool :=
  match e with
  | .file _ _ _ _ _ => true
  | .dir _ _ _ _ children =>
    decide (children.map entryName).Nodup && nodupNamesList children

def nodupNamesList (cs : List FsEntry) : Bool :=
  match cs with
  | [] => true
  | c :: rest => nodupNames c && nodupNamesList rest

end

mutual

/-- The number of readable regular files in the tree, counting only files
reachable through a chain of readable directories (the root included):
the spec's "number of readable files in T". -/
def readableCount (e : FsEntry) : Nat :=
  match e with
  | .file _ _ _ _ _ => 0
  | .dir _ readable _ _ children =>
    if readable then readableCountList children else 0

def readableCountList (cs : List FsEntry) : Nat :=
  match cs with
  | [] => 0
  | c :: rest => readableCountChild c + readableCountList rest

def readableCountChild (c : FsEntry) : Nat :=
  match c with
  | .file _ _ readable _ _ => if readable then 1 else 0
  | .dir _ readable _ _ children =>
    if readable then readableCountList children else 0

end

theorem walkList_append (b : Bool) (p : List String) (l₁ l₂ : List FsEntry) :
    walkList b p (l₁ ++ l₂) =
      ((walkList b p l₁).1 ++ (walkList b p l₂).1,
        (walkList b p l₁).2 ++ (walkList b p l₂).2) := by
  induction l₁ with
  | nil => simp [walkList]
  | cons c rest ih => simp [walkList, ih]

mutual

theorem walk_pass (b : Bool) (p : List String) (e : FsEntry) (h : stable e = true) :
    safe_iter_files b p e = safe_iter_files false p e := by
  match e with
  | .file n sz r ce v => simp [safe_iter_files]
  | .dir n r le ce cs =>
    simp only [stable, Bool.and_eq_true, Bool.not_eq_true'] at h
    simp only [safe_iter_files]
    split
    · rfl
    · split
      · rfl
      · exact walkList_pass b p cs h.2

theorem walkList_pass (b : Bool) (p : List String) (cs : List FsEntry)
    (h : stableList cs = true) : walkList b p cs = walkList false p cs := by
  match cs with
  | [] => rfl
  | c :: rest =>
    simp only [stableList, Bool.and_eq_true] at h
    simp only [walkList]
    rw [walkChild_pass b _ c h.1, walkList_pass b p rest h.2]

theorem walkChild_pass (b : Bool) (q : List String) (c : FsEntry) (h : stable c = true) :
    walkChild b q c = walkChild false q c := by
  match c with
  | .file n sz r ce v =>
    simp only [stable, Bool.and_eq_true, Bool.not_eq_true', decide_eq_true_eq] at h
    simp [walkChild, h.2]
  | .dir n r le ce cs =>
    simp only [stable, Bool.and_eq_true, Bool.not_eq_true'] at h
    simp only [walkChild]
    split
    · rfl
    · split
      · rfl
      · split
        · rfl
        · exact walkList_pass b q cs h.2

end

theorem prefix_snoc_inj {p x : List String} {a b : String}
    (h1 : (p ++ [a]) <+: x) (h2 : (p ++ [b]) <+: x) : a = b := by
  obtain ⟨t1, e1⟩ := h1
  obtain ⟨t2, e2⟩ := h2
  have h := e1.trans e2.symm
  simp only [List.append_assoc, List.singleton_append] at h
  exact (List.cons.injEq _ _ _ _ ▸ List.append_cancel_left h).1

mutual

theorem walk_ndsel (b : Bool) (p : List String) (e : FsEntry)
    (h : noDuringSelect e = true) :
    ∀ f ∈ (safe_iter_files b p e).1, f.vanish ≠ Vanish.duringSelect := by
  match e with
  | .file n sz r ce v => intro f hf; simp [safe_iter_files] at hf; split at hf <;> simp_all
  | .dir n r le ce cs =>
    simp only [noDuringSelect] at h
    intro f hf
    simp only [safe_iter_files] at hf
    split at hf
    · simp at hf
    · split at hf
      · simp at hf
      · exact walkList_ndsel b p cs h f hf

theorem walkList_ndsel (b : Bool) (p : List String) (cs : List FsEntry)
    (h : noDuringSelectList cs = true) :
    ∀ f ∈ (walkList b p cs).1, f.vanish ≠ Vanish.duringSelect := by
  match cs with
  | [] => intro f hf; simp [walkList] at hf
  | c :: rest =>
    simp only [noDuringSelectList, Bool.and_eq_true] at h
    intro f hf
    simp only [walkList, List.mem_append] at hf
    rcases hf with hf | hf
    · exact walkChild_ndsel b _ c h.1 f hf
    · exact walkList_ndsel b p rest h.2 f hf

theorem walkChild_ndsel (b : Bool) (q : List String) (c : FsEntry)
    (h : noDuringSelect c = true) :
    ∀ f ∈ (walkChild b q c).1, f.vanish ≠ Vanish.duringSelect := by
  match c with
  | .file n sz r ce v =>
    simp only [noDuringSelect, Bool.not_eq_true', decide_eq_false_iff_not] at h
    intro f hf
    simp only [walkChild] at hf
    split at hf
    · simp at hf
    · split at hf
      · simp at hf
      · split at hf
        · simp at hf
          subst hf
          simpa using h
        · simp at hf
  | .dir n r le ce cs =>
    simp only [noDuringSelect] at h
    intro f hf
    simp only [walkChild] at hf
    split at hf
    · simp at hf
    · split at hf
      · simp at hf
      · split at hf
        · simp at hf
        · exact walkList_ndsel b q cs h f hf

end

mutual

theorem stable_ndsel (e : FsEntry) (h : stable e = true) : noDuringSelect e = true := by
  match e with
  | .file n sz r ce v =>
    simp only [stable, Bool.and_eq_true, decide_eq_true_eq] at h
    simp [noDuringSelect, h.2]
  | .dir n r le ce cs =>
    simp only [stable, Bool.and_eq_true] at h
    simpa [noDuringSelect] using stableList_ndsel cs h.2

theorem stableList_ndsel (cs : List FsEntry) (h : stableList cs = true) :
    noDuringSelectList cs = true := by
  match cs with
  | [] => rfl
  | c :: rest =>
    simp only [stableList, Bool.and_eq_true] at h
    simp only [noDuringSelectList, Bool.and_eq_true]
    exact ⟨stable_ndsel c h.1, stableList_ndsel rest h.2⟩

end

mutual

theorem walk_count (p : List String) (e : FsEntry) (h : stable e = true) :
    (safe_iter_files false p e).1.length = readableCount e := by
  match e with
  | .file n sz r ce v => simp [safe_iter_files, readableCount]; split <;> simp
  | .dir n r le ce cs =>
    simp only [stable, Bool.and_eq_true, Bool.not_eq_true'] at h
    cases r with
    | false => simp [safe_iter_files, readableCount]
    | true =>
      simp only [safe_iter_files, readableCount, h.1.1]
      simpa using walkList_count p cs h.2

theorem walkList_count (p : List String) (cs : List FsEntry)
    (h : stableList cs = true) :
    (walkList false p cs).1.length = readableCountList cs := by
  match cs with
  | [] => rfl
  | c :: rest =>
    simp only [stableList, Bool.and_eq_true] at h
    simp only [walkList, readableCountList, List.length_append]
    rw [walkChild_count _ c h.1, walkList_count p rest h.2]

theorem walkChild_count (q : List String) (c : FsEntry) (h : stable c = true) :
    (walkChild false q c).1.length = readableCountChild c := by
  match c with
  | .file n sz r ce v =>
    simp only [stable, Bool.and_eq_true, Bool.not_eq_true', decide_eq_true_eq] at h
    simp [walkChild, readableCountChild, h.1]
    split <;> simp
  | .dir n r le ce cs =>
    simp only [stable, Bool.and_eq_true, Bool.not_eq_true'] at h
    simp [walkChild, readableCountChild, h.1.1, h.1.2]
    cases r with
    | false => simp
    | true => simpa using walkList_count q cs h.2

end

mutual

theorem walkList_prefix (b : Bool) (p : List String) (cs : List FsEntry) :
    ∀ f ∈ (walkList b p cs).1, ∃ c ∈ cs, (p ++ [entryName c]) <+: f.path := by
  match cs with
  | [] => intro f hf; simp [walkList] at hf
  | c :: rest =>
    intro f hf
    simp only [walkList, List.mem_append] at hf
    rcases hf with hf | hf
    · exact ⟨c, by simp, walkChild_prefix b _ c f hf⟩
    · obtain ⟨c', hc', hpre⟩ := walkList_prefix b p rest f hf
      exact ⟨c', by simp [hc'], hpre⟩

theorem walkChild_prefix (b : Bool) (q : List String) (c : FsEntry) :
    ∀ f ∈ (walkChild b q c).1, q <+: f.path := by
  match c with
  | .file n sz r ce v =>
    intro f hf
    simp only [walkChild] at hf
    split at hf
    · simp at hf
    · split at hf
      · simp at hf
      · split at hf
        · simp at hf; subst hf; exact List.prefix_refl q
        · simp at hf
  | .dir n r le ce cs =>
    intro f hf
    simp only [walkChild] at hf
    split at hf
    · simp at hf
    · split at hf
      · simp at hf
      · split at hf
        · simp at hf
        · obtain ⟨c', _, hpre⟩ := walkList_prefix b q cs f hf
          exact List.IsPrefix.trans ⟨[entryName c'], rfl⟩ hpre

end

mutual

theorem walk_nodup (b : Bool) (p : List String) (e : FsEntry)
    (h : nodupNames e = true) : ((safe_iter_files b p e).1.map FileRef.path).Nodup := by
  match e with
  | .file n sz r ce v => simp [safe_iter_files]; split <;> simp
  | .dir n r le ce cs =>
    simp only [nodupNames, Bool.and_eq_true, decide_eq_true_eq] at h
    simp only [safe_iter_files]
    split
    · simp
    · split
      · simp
      · exact walkList_nodup b p cs h.1 h.2

theorem walkList_nodup (b : Bool) (p : List String) (cs : List FsEntry)
    (h1 : (cs.map entryName).Nodup) (h2 : nodupNamesList cs = true) :
    ((walkList b p cs).1.map FileRef.path).Nodup := by
  match cs with
  | [] => simp [walkList]
  | c :: rest =>
    simp only [List.map_cons, List.nodup_cons] at h1
    simp only [nodupNamesList, Bool.and_eq_true] at h2
    simp only [walkList, List.map_append]
    refine List.Nodup.append (walkChild_nodup b _ c h2.1)
      (walkList_nodup b p rest h1.2 h2.2) ?_
    intro x hx hx'
    simp only [List.mem_map] at hx hx'
    obtain ⟨f, hf, rfl⟩ := hx
    obtain ⟨f', hf', heq⟩ := hx'
    obtain ⟨c', hc', hpre'⟩ := walkList_prefix b p rest f' hf'
    have hpre := walkChild_prefix b _ c f hf
    rw [heq] at hpre'
    have : entryName c = entryName c' := prefix_snoc_inj hpre hpre'
    exact h1.1 (this ▸ List.mem_map_of_mem entryName hc')

theorem walkChild_nodup (b : Bool) (q : List String) (c : FsEntry)
    (h : nodupNames c = true) : ((walkChild b q c).1.map FileRef.path).Nodup := by
  match c with
  | .file n sz r ce v =>
    simp only [walkChild]
    split
    · simp
    · split
      · simp
      · split <;> simp
  | .dir n r le ce cs =>
    simp only [nodupNames, Bool.and_eq_true, decide_eq_true_eq] at h
    simp only [walkChild]
    split
    · simp
    · split
      · simp
      · split
        · simp
        · exact walkList_nodup b q cs h.1 h.2

end

theorem keyAll_ok (fs : List FileRef)
    (h : ∀ f ∈ fs, f.vanish ≠ Vanish.duringSelect) :
    keyAll fs = Except.ok (fs.map fun f => (f.size, f)) := by
  induction fs with
  | nil => rfl
  | cons f rest ih =>
    have hk : fileKey f = Except.ok f.size := by
      have := h f (by simp)
      unfold fileKey
      cases hv : f.vanish <;> simp_all
    simp only [keyAll, hk, ih fun g hg => h g (by simp [hg]), List.map_cons]

instance : IsTotal ℕ (· ≥ ·) := ⟨fun a b => Nat.le_total b a⟩

instance : IsTrans ℕ (· ≥ ·) := ⟨fun _ _ _ h1 h2 => Nat.le_trans h2 h1⟩

instance : IsAntisymm ℕ (· ≥ ·) := ⟨fun _ _ h1 h2 => Nat.le_antisymm h2 h1⟩

/-- The selection `heapq.nlargest` computes when every key evaluation
succeeds: the first `limit` elements of the stable descending sort. -/
def topSel (L : Int) (files : List FileRef) : List FileRef :=
  (((files.map fun f => (f.size, f)).insertionSort keyGE).take L.toNat).map Prod.snd

theorem nlargest_ok (L : Int) (files : List FileRef) (hL : 0 < L)
    (h : ∀ f ∈ files, f.vanish ≠ Vanish.duringSelect) :
    nlargest L files = Except.ok (topSel L files) := by
  unfold nlargest topSel
  rw [if_neg (by omega), keyAll_ok files h]

theorem topSel_length (L : Int) (files : List FileRef) :
    (topSel L files).length = min L.toNat files.length := by
  simp [topSel, List.length_insertionSort]

theorem mem_sort_keyed {files : List FileRef} {x : Nat × FileRef}
    (hx : x ∈ (files.map fun f => (f.size, f)).insertionSort keyGE) :
    x.1 = x.2.size := by
  have hx' := (List.perm_insertionSort keyGE _).subset hx
  simp only [List.mem_map] at hx'
  obtain ⟨f, _, rfl⟩ := hx'
  rfl

theorem topSel_sizes (L : Int) (files : List FileRef) :
    (topSel L files).map FileRef.size =
      ((files.map FileRef.size).insertionSort (· ≥ ·)).take L.toNat := by
  unfold topSel
  rw [List.map_map]
  have hcongr :
      ((((files.map fun f => (f.size, f)).insertionSort keyGE).take L.toNat).map
          (FileRef.size ∘ Prod.snd)) =
        ((((files.map fun f => (f.size, f)).insertionSort keyGE).take L.toNat).map
          Prod.fst) := by
    apply List.map_congr_left
    intro x hx
    exact (mem_sort_keyed (List.mem_of_mem_take hx)).symm
  rw [hcongr, List.map_take]
  congr 1
  have hs1 : List.Sorted (· ≥ ·)
      (((files.map fun f => (f.size, f)).insertionSort keyGE).map Prod.fst) :=
    List.pairwise_map.mpr (List.sorted_insertionSort keyGE _)
  have hs2 : List.Sorted (α := ℕ) (· ≥ ·)
      ((files.map FileRef.size).insertionSort (· ≥ ·)) :=
    List.sorted_insertionSort _ _
  refine List.eq_of_perm_of_sorted ?_ hs1 hs2
  calc ((files.map fun f => (f.size, f)).insertionSort keyGE).map Prod.fst
      ~ ((files.map fun f => (f.size, f)).map Prod.fst) :=
        (List.perm_insertionSort keyGE _).map Prod.fst
    _ = files.map FileRef.size := by rw [List.map_map]; rfl
    _ ~ (files.map FileRef.size).insertionSort (· ≥ ·) :=
        (List.perm_insertionSort _ _).symm

theorem topSel_sorted (L : Int) (files : List FileRef) :
    List.Sorted (· ≥ ·) ((topSel L files).map FileRef.size) := by
  rw [topSel_sizes]
  exact (List.sorted_insertionSort _ _).sublist (List.take_sublist _ _)

theorem topSel_sublist_perm (L : Int) (files : List FileRef) :
    ∃ mid, topSel L files <+ mid ∧ mid ~ files := by
  refine ⟨((files.map fun f => (f.size, f)).insertionSort keyGE).map Prod.snd,
    ?_, ?_⟩
  · exact (List.take_sublist _ _).map Prod.snd
  · calc ((files.map fun f => (f.size, f)).insertionSort keyGE).map Prod.snd
        ~ ((files.map fun f => (f.size, f)).map Prod.snd) :=
          (List.perm_insertionSort keyGE _).map Prod.snd
      _ = files := by rw [List.map_map]; exact List.map_id files

/-- C1: every OS-level error during traversal (permission denied on a
subdirectory, I/O error while listing, entry vanished while being touched)
is caught by `safe_iter_files` and logged as exactly one warning naming the
offending path, and traversal continues: a permission-denied subdirectory
placed between any two sibling lists contributes no files while every file
of the siblings is still yielded, the denied subtree producing exactly the
single permission warning for its own path; an error while touching an
individual child likewise yields nothing but one warning; and no error is
ever propagated to the caller (`safe_iter_files` is a total function into results and
warnings — the `try/except` blocks at lines 57-70 convert every raised
OS error into a logged warning). -/
theorem C1_errors_caught_and_isolated (b : Bool) (p : List String)
    (nm dn : String) (dcs l₁ l₂ : List FsEntry) :
    safe_iter_files b p (FsEntry.dir nm true false false
        (l₁ ++ FsEntry.dir dn false false false dcs :: l₂)) =
      ((walkList b p l₁).1 ++ (walkList b p l₂).1,
        (walkList b p l₁).2 ++ Warn.perm (p ++ [dn]) :: (walkList b p l₂).2) ∧
    (∀ (q : List String) (fn : String) (sz : Nat) (rd : Bool) (v : Vanish),
      walkChild false q (FsEntry.file fn sz rd true v) = ([], [Warn.oserr q])) ∧
    (∀ (q : List String) (ndn : String) (ncs : List FsEntry),
      walkChild b q (FsEntry.dir ndn true true false ncs) = ([], [Warn.oserr q])) := by
  refine ⟨?_, ?_, ?_⟩
  · simp [safe_iter_files, walkList_append, walkList, walkChild, entryName]
  · intro q fn sz rd v
    simp [walkChild]
  · intro q ndn ncs
    simp [walkChild]

/-- C2: for every stable directory tree with distinct sibling names and
every limit L > 0, `list_highest_files` succeeds and returns a list of
length `min L (number of readable files in the tree)`, sorted in descending
order of file size, with no duplicated entry — in particular it is never
padded when fewer than L readable files exist. -/
theorem C2_top_list_shape (t : FsEntry) (L : Int) (hL : 0 < L)
    (hs : stable t = true) (hn : nodupNames t = true) :
    ∃ l, list_highest_files t L = Except.ok l ∧
      l.length = min L.toNat (readableCount t) ∧
      List.Sorted (· ≥ ·) (l.map FileRef.size) ∧
      (l.map FileRef.path).Nodup := by
  have hnd : ∀ f ∈ (safe_iter_files false [entryName t] t).1, f.vanish ≠ Vanish.duringSelect :=
    walk_ndsel false _ t (stable_ndsel t hs)
  refine ⟨topSel L (safe_iter_files false [entryName t] t).1, ?_, ?_, ?_, ?_⟩
  · unfold list_highest_files
    exact nlargest_ok L _ hL hnd
  · rw [topSel_length, walk_count _ t hs]
  · exact topSel_sorted L _
  · obtain ⟨mid, hsub, hperm⟩ := topSel_sublist_perm L (safe_iter_files false [entryName t] t).1
    have hmid : (mid.map FileRef.path).Nodup :=
      (hperm.map FileRef.path).symm.nodup (walk_nodup false _ t hn)
    exact hmid.sublist (hsub.map FileRef.path)

theorem C2_top_list_shape_witness :
    0 < (2 : Int) ∧
      stable (FsEntry.dir "r" true false false
        [FsEntry.file "a" 5 true false Vanish.never,
         FsEntry.file "b" 9 true false Vanish.never,
         FsEntry.file "c" 7 true false Vanish.never]) = true ∧
      nodupNames (FsEntry.dir "r" true false false
        [FsEntry.file "a" 5 true false Vanish.never,
         FsEntry.file "b" 9 true false Vanish.never,
         FsEntry.file "c" 7 true false Vanish.never]) = true ∧
      ∃ l, list_highest_files (FsEntry.dir "r" true false false
        [FsEntry.file "a" 5 true false Vanish.never,
         FsEntry.file "b" 9 true false Vanish.never,
         FsEntry.file "c" 7 true false Vanish.never]) 2 = Except.ok l ∧
        l.length = min (2 : Int).toNat (readableCount (FsEntry.dir "r" true false false
          [FsEntry.file "a" 5 true false Vanish.never,
           FsEntry.file "b" 9 true false Vanish.never,
           FsEntry.file "c" 7 true false Vanish.never])) ∧
        List.Sorted (· ≥ ·) (l.map FileRef.size) ∧
        (l.map FileRef.path).Nodup :=
  ⟨by decide, by decide, by decide,
    C2_top_list_shape _ 2 (by decide) (by decide) (by decide)⟩

/-- Example tree with mixed readable and unreadable entries. -/
def exTreeMixed : FsEntry :=
  FsEntry.dir "r" true false false
    [FsEntry.file "a" 5 true false Vanish.never,
     FsEntry.dir "locked" false false false
       [FsEntry.file "big" 100 true false Vanish.never],
     FsEntry.file "b" 9 false false Vanish.never]

/-- C3: on a stable tree with distinct sibling names, the total computed by
`calc_dir_size` equals the sum of the sizes of exactly the files yielded by
the walker (`safe_iter_files`): files skipped for permission reasons are not
yielded and so contribute nothing, and no file is counted twice (the
yielded paths are pairwise distinct). -/
theorem C3_total_matches_walker (t : FsEntry) (hs : stable t = true)
    (hn : nodupNames t = true) :
    calc_dir_size t = ((safe_iter_files false [entryName t] t).1.map FileRef.size).sum ∧
      ((safe_iter_files false [entryName t] t).1.map FileRef.path).Nodup := by
  constructor
  · unfold calc_dir_size
    rw [walk_pass true _ t hs]
  · exact walk_nodup false _ t hn

theorem C3_total_matches_walker_witness :
    stable exTreeMixed = true ∧ nodupNames exTreeMixed = true ∧
      (calc_dir_size exTreeMixed =
        ((safe_iter_files false [entryName exTreeMixed] exTreeMixed).1.map FileRef.size).sum ∧
      ((safe_iter_files false [entryName exTreeMixed] exTreeMixed).1.map FileRef.path).Nodup) :=
  ⟨by decide, by decide, C3_total_matches_walker exTreeMixed (by decide) (by decide)⟩

/-- C7: `has_read_access` never raises past its boundary — it is a total
boolean function of the outcomes of the OS calls it makes, and every
failure mode collapses to `false`: it returns `true` exactly when the
baseline `os.access` check succeeds, or when the baseline fails, the
platform security-descriptor query is available, and that query returns a
descriptor with no DACL; an error raised during the descriptor query (or a
descriptor with a DACL, or no win32 support) yields `false`. -/
theorem C7_access_prober_collapses_to_bool (a w : Bool)
    (d : Except Unit (Option Unit)) :
    has_read_access a w d =
      (a || (w && match d with | Except.ok none => true | _ => false)) := by
  cases a <;> cases w <;>
    (rcases d with e | o
     · simp [has_read_access]
     · rcases o with _ | u <;> simp [has_read_access])

/-- C10 (implicit): when the supplied root path exists but is a regular
(readable) file, the program does not crash: the `NotADirectoryError`
raised by `iterdir` inside the walker is caught and logged as a warning
naming the root, the walker yields nothing, the program reports that no
files were found with a total of zero, and the process exits 0. -/
theorem C10_regular_file_root (nm : String) (sz : Nat) (ce : Bool)
    (v : Vanish) (L : Int) :
    pyMain true (FsEntry.file nm sz true ce v) L =
      ⟨0, false, true, [], some 0, if L ≤ 0 then 1 else 2⟩ ∧
    safe_iter_files false [nm] (FsEntry.file nm sz true ce v) = ([], [Warn.oserr [nm]]) := by
  have hnil : ∀ M : Int, nlargest M [] = Except.ok [] := by
    intro M
    unfold nlargest keyAll
    split <;> simp
  constructor
  · unfold pyMain list_highest_files
    simp [safe_iter_files, entryName, hnil, calc_dir_size]
  · simp [safe_iter_files]

/-- One step of the spec's bounded top-N accumulator: insert a size into
the descending sorted list of current top sizes and truncate to capacity. -/
def bInsert (L : ℕ) (k : ℕ) (acc : List ℕ) : List ℕ :=
  (acc.orderedInsert (· ≥ ·) k).take L

/-- Iterating the bounded insert over a stream of sizes. -/
def foldTop (L : ℕ) (ks : List ℕ) : List ℕ :=
  ks.foldl (fun acc k => bInsert L k acc) []

/-- Modelled from the spec: "consumes the lazy file sequence exactly once
to produce both (a) the N largest files by size, and (b) the total size of
all files", as a single fold that keeps at most `limit` size records plus a
running total. -/
def specSinglePass (L : ℕ) (s : List FileRef) : List ℕ × ℕ :=
  s.foldl (fun acc f => (bInsert L f.size acc.1, acc.2 + f.size)) ([], 0)

theorem take_orderedInsert (k : ℕ) :
    ∀ (m : List ℕ) (L : ℕ),
      ((m.take L).orderedInsert (· ≥ ·) k).take L =
        (m.orderedInsert (· ≥ ·) k).take L := by
  intro m
  induction m with
  | nil => intro L; simp
  | cons a m' ih =>
    intro L
    match L with
    | 0 => simp
    | Nat.succ n =>
      simp only [List.take_succ_cons, List.orderedInsert]
      split
      · simp only [List.take_succ_cons]
        congr 1
        match n with
        | 0 => simp
        | Nat.succ j =>
          simp only [List.take_succ_cons]
          congr 1
          rw [List.take_take]
          congr 1
          omega
      · simp only [List.take_succ_cons]
        congr 1
        exact ih n

theorem sort_append_singleton (ks : List ℕ) (k : ℕ) :
    (ks ++ [k]).insertionSort (· ≥ ·) =
      (ks.insertionSort (· ≥ ·)).orderedInsert (· ≥ ·) k := by
  refine List.eq_of_perm_of_sorted ?_ (List.sorted_insertionSort _ _)
    ((List.sorted_insertionSort _ ks).orderedInsert k _)
  calc (ks ++ [k]).insertionSort (· ≥ ·)
      ~ ks ++ [k] := List.perm_insertionSort _ _
    _ ~ k :: ks := List.perm_append_singleton k ks
    _ ~ k :: ks.insertionSort (· ≥ ·) := (List.perm_insertionSort _ ks).symm.cons k
    _ ~ (ks.insertionSort (· ≥ ·)).orderedInsert (· ≥ ·) k :=
        (List.perm_orderedInsert _ k _).symm

theorem foldTop_eq (L : ℕ) (ks : List ℕ) :
    foldTop L ks = (ks.insertionSort (· ≥ ·)).take L := by
  induction ks using List.reverseRecOn with
  | nil => simp [foldTop]
  | append_singleton ks k ih =>
    unfold foldTop at ih ⊢
    rw [List.foldl_append, List.foldl_cons, List.foldl_nil, ih,
      sort_append_singleton]
    unfold bInsert
    exact take_orderedInsert k _ L

theorem specSinglePass_eq (L : ℕ) (s : List FileRef) :
    specSinglePass L s = (foldTop L (s.map FileRef.size), (s.map FileRef.size).sum) := by
  suffices h : ∀ (acc1 : List ℕ) (acc2 : ℕ),
      s.foldl (fun acc f => (bInsert L f.size acc.1, acc.2 + f.size)) (acc1, acc2) =
        ((s.map FileRef.size).foldl (fun acc k => bInsert L k acc) acc1,
          acc2 + (s.map FileRef.size).sum) by
    simpa [specSinglePass, foldTop] using h [] 0
  induction s with
  | nil => intro acc1 acc2; simp
  | cons f rest ih =>
    intro acc1 acc2
    simp only [List.foldl_cons, List.map_cons, List.sum_cons, ih]
    rw [Nat.add_assoc]

mutual

theorem walk_pass2_never (p : List String) (e : FsEntry) :
    ∀ f ∈ (safe_iter_files true p e).1, f.vanish = Vanish.never := by
  match e with
  | .file n sz r ce v => intro f hf; simp [safe_iter_files] at hf; split at hf <;> simp_all
  | .dir n r le ce cs =>
    intro f hf
    simp only [safe_iter_files] at hf
    split at hf
    · simp at hf
    · split at hf
      · simp at hf
      · exact walkList_pass2_never p cs f hf

theorem walkList_pass2_never (p : List String) (cs : List FsEntry) :
    ∀ f ∈ (walkList true p cs).1, f.vanish = Vanish.never := by
  match cs with
  | [] => intro f hf; simp [walkList] at hf
  | c :: rest =>
    intro f hf
    simp only [walkList, List.mem_append] at hf
    rcases hf with hf | hf
    · exact walkChild_pass2_never _ c f hf
    · exact walkList_pass2_never p rest f hf

theorem walkChild_pass2_never (q : List String) (c : FsEntry) :
    ∀ f ∈ (walkChild true q c).1, f.vanish = Vanish.never := by
  match c with
  | .file n sz r ce v =>
    intro f hf
    simp only [walkChild] at hf
    split at hf
    · simp at hf
    · next hcond =>
      split at hf
      · simp at hf
      · split at hf
        · simp at hf
          subst hf
          simp only [true_and, not_not] at hcond
          simpa using hcond
        · simp at hf
  | .dir n r le ce cs =>
    intro f hf
    simp only [walkChild] at hf
    split at hf
    · simp at hf
    · split at hf
      · simp at hf
      · split at hf
        · simp at hf
        · exact walkList_pass2_never q cs f hf

end

/-- Example: a small readable tree with a single stable file of size 5. -/
def exTreeSimple : FsEntry :=
  FsEntry.dir "r" true false false [FsEntry.file "a" 5 true false Vanish.never]

/-- C4 counterexample: the claim that a single scan consumes the walker's
sequence exactly once is false — on a plain one-file tree with the default
limit 10, `main` consumes two independent root traversals (one started by
`list_highest_files` at line 111, a second started by `calc_dir_size` at
line 122), not one. -/
theorem C4_counterexample_two_traversals :
    (pyMain true exTreeSimple 10).traversals = 2 ∧
      ¬ (pyMain true exTreeSimple 10).traversals = 1 := by
  constructor <;> decide

/-- C4 (amended): in a single scan the program consumes the walker's
sequence twice — one traversal for the top-N selection and a second,
independent traversal for the total — but on a stable tree both traversals
yield the same sequence, so the pair (top-N sizes, total) it reports equals
the result of the spec's single-pass bounded fold over the one sequence
produced by the first traversal. -/
theorem C4_amended_single_pass_equivalent (t : FsEntry) (L : Int)
    (hL : 0 < L) (hs : stable t = true) :
    (pyMain true t L).traversals = 2 ∧
      ((pyMain true t L).topShown.map fun x => x.1.size) =
        (specSinglePass L.toNat (safe_iter_files false [entryName t] t).1).1 ∧
      (pyMain true t L).totalShown =
        some (specSinglePass L.toNat (safe_iter_files false [entryName t] t).1).2 := by
  have hnd : ∀ f ∈ (safe_iter_files false [entryName t] t).1, f.vanish ≠ Vanish.duringSelect :=
    walk_ndsel false _ t (stable_ndsel t hs)
  have hok : list_highest_files t L = Except.ok (topSel L (safe_iter_files false [entryName t] t).1) := by
    unfold list_highest_files
    exact nlargest_ok L _ hL hnd
  have hmain : pyMain true t L =
      ⟨0, false, (topSel L (safe_iter_files false [entryName t] t).1).isEmpty,
        (topSel L (safe_iter_files false [entryName t] t).1).map displayEntry,
        some (calc_dir_size t), if L ≤ 0 then 1 else 2⟩ := by
    unfold pyMain
    rw [hok]
    rfl
  rw [hmain, specSinglePass_eq]
  refine ⟨?_, ?_, ?_⟩
  · show (if L ≤ 0 then (1 : ℕ) else 2) = 2
    rw [if_neg (by omega)]
  · show ((topSel L (safe_iter_files false [entryName t] t).1).map displayEntry).map
        (fun x => x.1.size) = _
    rw [List.map_map,
      show ((fun (x : FileRef × Option ℕ) => x.1.size) ∘ displayEntry) =
        FileRef.size from rfl,
      topSel_sizes, foldTop_eq]
  · show some (calc_dir_size t) = some (((safe_iter_files false [entryName t] t).1.map FileRef.size).sum)
    unfold calc_dir_size
    rw [walk_pass true _ t hs]

/-- C4 amended witness. -/
theorem C4_amended_single_pass_equivalent_witness :
    0 < (10 : Int) ∧ stable exTreeSimple = true ∧
      ((pyMain true exTreeSimple 10).traversals = 2 ∧
        ((pyMain true exTreeSimple 10).topShown.map fun x => x.1.size) =
          (specSinglePass (10 : Int).toNat
            (safe_iter_files false [entryName exTreeSimple] exTreeSimple).1).1 ∧
        (pyMain true exTreeSimple 10).totalShown =
          some (specSinglePass (10 : Int).toNat
            (safe_iter_files false [entryName exTreeSimple] exTreeSimple).1).2) :=
  ⟨by decide, by decide,
    C4_amended_single_pass_equivalent exTreeSimple 10 (by decide) (by decide)⟩

/-- Example: a readable tree whose single file vanishes between being
yielded by the walker and the size lookup inside `heapq.nlargest`. -/
def exTreeVanish : FsEntry :=
  FsEntry.dir "r" true false false
    [FsEntry.file "a" 7 true false Vanish.duringSelect]

/-- C5 counterexample: a file whose size query fails after it has been
yielded by the walker does not contribute zero with a warning — the
`stat` inside the `heapq.nlargest` key raises, the exception propagates out
of `list_highest_files` through line 111 (not inside any `try`), and the
whole report is aborted: the process crashes with exit code 1, printing no
top-N listing and no total. -/
theorem C5_counterexample_selection_stat_crash :
    (pyMain true exTreeVanish 10).crashed = true ∧
      (pyMain true exTreeVanish 10).totalShown = none ∧
      (pyMain true exTreeVanish 10).topShown = [] ∧
      (pyMain true exTreeVanish 10).exitCode = 1 := by
  refine ⟨?_, ?_, ?_, ?_⟩ <;> decide

/-- C5 (amended): a file whose size query fails during top-N selection
aborts the program with an uncaught exception; only when no file vanishes
during selection does the run complete (exit 0): a file that vanished after
selection still appears in the top-N listing but its display line is
replaced by a warning (no size shown), and it contributes zero to the total
because the second traversal run by `calc_dir_size` no longer enumerates
it — the total is the sum of the sizes of the not-vanished files only. -/
theorem C5_amended_late_vanish_recovered (t : FsEntry) (L : Int)
    (hL : 0 < L) (hnd : noDuringSelect t = true) :
    ∃ l, list_highest_files t L = Except.ok l ∧
      (pyMain true t L).crashed = false ∧
      (pyMain true t L).exitCode = 0 ∧
      (pyMain true t L).topShown = l.map displayEntry ∧
      (pyMain true t L).totalShown = some (calc_dir_size t) ∧
      (∀ f ∈ l, f.vanish ≠ Vanish.never → (displayEntry f).2 = none) ∧
      (∀ f ∈ (safe_iter_files true [entryName t] t).1, f.vanish = Vanish.never) ∧
      calc_dir_size t = ((safe_iter_files true [entryName t] t).1.map FileRef.size).sum := by
  have hok : list_highest_files t L =
      Except.ok (topSel L (safe_iter_files false [entryName t] t).1) := by
    unfold list_highest_files
    exact nlargest_ok L _ hL (walk_ndsel false _ t hnd)
  have hmain : pyMain true t L =
      ⟨0, false, (topSel L (safe_iter_files false [entryName t] t).1).isEmpty,
        (topSel L (safe_iter_files false [entryName t] t).1).map displayEntry,
        some (calc_dir_size t), if L ≤ 0 then 1 else 2⟩ := by
    unfold pyMain
    rw [hok]
    rfl
  refine ⟨topSel L (safe_iter_files false [entryName t] t).1, hok, ?_, ?_, ?_, ?_, ?_, ?_, ?_⟩
  · rw [hmain]
  · rw [hmain]
  · rw [hmain]
  · rw [hmain]
  · intro f _ hv
    simp [displayEntry, hv]
  · exact walk_pass2_never _ t
  · rfl

/-- Example tree for the C5 amended witness: one file vanishes after
selection, one never vanishes. -/
def exTreeAfter : FsEntry :=
  FsEntry.dir "r" true false false
    [FsEntry.file "a" 7 true false Vanish.afterSelect,
     FsEntry.file "b" 3 true false Vanish.never]

/-- C5 amended witness. -/
theorem C5_amended_late_vanish_recovered_witness :
    0 < (10 : Int) ∧ noDuringSelect exTreeAfter = true ∧
      (∃ l, list_highest_files exTreeAfter 10 = Except.ok l ∧
        (pyMain true exTreeAfter 10).crashed = false ∧
        (pyMain true exTreeAfter 10).exitCode = 0 ∧
        (pyMain true exTreeAfter 10).topShown = l.map displayEntry ∧
        (pyMain true exTreeAfter 10).totalShown = some (calc_dir_size exTreeAfter) ∧
        (∀ f ∈ l, f.vanish ≠ Vanish.never → (displayEntry f).2 = none) ∧
        (∀ f ∈ (safe_iter_files true [entryName exTreeAfter] exTreeAfter).1,
          f.vanish = Vanish.never) ∧
        calc_dir_size exTreeAfter =
          ((safe_iter_files true [entryName exTreeAfter] exTreeAfter).1.map FileRef.size).sum) :=
  ⟨by decide, by decide,
    C5_amended_late_vanish_recovered exTreeAfter 10 (by decide) (by decide)⟩

/-- C6 counterexample: a non-positive `--limit` is not treated as a
configuration error — with `--limit 0` on a one-file tree the program
reports an empty top list ("no files found"), still runs a full traversal
to compute and print the total (5 bytes), and exits 0, instead of exiting
non-zero with no scan work. -/
theorem C6_counterexample_limit_zero_accepted :
    (pyMain true exTreeSimple 0).exitCode = 0 ∧
      (pyMain true exTreeSimple 0).totalShown = some 5 ∧
      (pyMain true exTreeSimple 0).traversals = 1 := by
  refine ⟨?_, ?_, ?_⟩ <;> decide

/-- C6 (amended): a non-positive `--limit` is accepted silently:
`heapq.nlargest` returns an empty selection without consuming the walker's
generator, the program logs the "no files found" message, still performs
the one `calc_dir_size` traversal to compute and report the total, and
exits 0. -/
theorem C6_amended_nonpositive_limit_silent (t : FsEntry) (L : Int)
    (hL : L ≤ 0) :
    pyMain true t L = ⟨0, false, true, [], some (calc_dir_size t), 1⟩ := by
  unfold pyMain list_highest_files nlargest
  rw [if_pos hL]
  simp [hL]

/-- C6 amended witness. -/
theorem C6_amended_nonpositive_limit_silent_witness :
    (0 : Int) ≤ 0 ∧
      pyMain true exTreeSimple 0 =
        ⟨0, false, true, [], some (calc_dir_size exTreeSimple), 1⟩ :=
  ⟨by decide, C6_amended_nonpositive_limit_silent exTreeSimple 0 (by decide)⟩

theorem sort_eq_of_perm {ks ks' : List ℕ} (h : ks ~ ks') :
    ks.insertionSort (· ≥ ·) = ks'.insertionSort (· ≥ ·) :=
  List.eq_of_perm_of_sorted
    ((List.perm_insertionSort _ ks).trans (h.trans (List.perm_insertionSort _ ks').symm))
    (List.sorted_insertionSort _ ks) (List.sorted_insertionSort _ ks')

/-- C9: on an unmodified stable tree the scan is idempotent — running
`list_highest_files` and `calc_dir_size` twice yields the same results —
and moreover the reported data does not depend on the traversal order: for
any two trees whose walkers yield permuted sequences of the same files
(the spec leaves sibling enumeration order implementation-defined), the
top-L lists carry the same sizes in the same order and the totals are
equal. -/
theorem C9_scan_idempotent (t t' : FsEntry) (L : Int)
    (hs : stable t = true) (hs' : stable t' = true) (hL : 0 < L)
    (hperm : (safe_iter_files false [entryName t] t).1 ~ (safe_iter_files false [entryName t'] t').1) :
    (list_highest_files t L = list_highest_files t L ∧
      calc_dir_size t = calc_dir_size t) ∧
    (∃ l l', list_highest_files t L = Except.ok l ∧
      list_highest_files t' L = Except.ok l' ∧
      l.map FileRef.size = l'.map FileRef.size) ∧
    calc_dir_size t = calc_dir_size t' := by
  refine ⟨⟨rfl, rfl⟩, ?_, ?_⟩
  · refine ⟨topSel L (safe_iter_files false [entryName t] t).1,
      topSel L (safe_iter_files false [entryName t'] t').1, ?_, ?_, ?_⟩
    · unfold list_highest_files
      exact nlargest_ok L _ hL (walk_ndsel false _ t (stable_ndsel t hs))
    · unfold list_highest_files
      exact nlargest_ok L _ hL (walk_ndsel false _ t' (stable_ndsel t' hs'))
    · rw [topSel_sizes, topSel_sizes, sort_eq_of_perm (hperm.map FileRef.size)]
  · unfold calc_dir_size
    rw [walk_pass true _ t hs, walk_pass true _ t' hs']
    exact (hperm.map FileRef.size).sum_eq

/-- C9 witness (second run on the identical tree). -/
theorem C9_scan_idempotent_witness :
    stable exTreeSimple = true ∧ 0 < (10 : Int) ∧
      ((list_highest_files exTreeSimple 10 = list_highest_files exTreeSimple 10 ∧
        calc_dir_size exTreeSimple = calc_dir_size exTreeSimple) ∧
      (∃ l l', list_highest_files exTreeSimple 10 = Except.ok l ∧
        list_highest_files exTreeSimple 10 = Except.ok l' ∧
        l.map FileRef.size = l'.map FileRef.size) ∧
      calc_dir_size exTreeSimple = calc_dir_size exTreeSimple) :=
  ⟨by decide, by decide,
    C9_scan_idempotent exTreeSimple exTreeSimple 10 (by decide) (by decide)
      (by decide) (List.Perm.refl _)⟩

theorem formatSize_spec (n : ℕ) :
    format_size (n : ℚ) =
      fmt2 ((n : ℚ) / 1024 ^ specUnitIndex n) ++ " " ++ unitName (specUnitIndex n) := by
  have q1 : ((n:ℚ)/1024 < 1024) ↔ (n < 1024 ^ 2) := by
    rw [div_lt_iff₀ (by norm_num : (0:ℚ) < 1024),
      show ((1024:ℚ) * 1024) = ((1024 ^ 2 : ℕ) : ℚ) from by norm_num]
    exact_mod_cast Iff.rfl
  have q2 : ((n:ℚ)/1024/1024 < 1024) ↔ (n < 1024 ^ 3) := by
    rw [div_div, div_lt_iff₀ (by norm_num : (0:ℚ) < 1024*1024),
      show ((1024:ℚ) * (1024*1024)) = ((1024 ^ 3 : ℕ) : ℚ) from by norm_num]
    exact_mod_cast Iff.rfl
  have q3 : ((n:ℚ)/1024/1024/1024 < 1024) ↔ (n < 1024 ^ 4) := by
    rw [div_div, div_div, div_lt_iff₀ (by norm_num : (0:ℚ) < 1024*(1024*1024)),
      show ((1024:ℚ) * (1024*(1024*1024))) = ((1024 ^ 4 : ℕ) : ℚ) from by norm_num]
    exact_mod_cast Iff.rfl
  have q4 : ((n:ℚ)/1024/1024/1024/1024 < 1024) ↔ (n < 1024 ^ 5) := by
    rw [div_div, div_div, div_div,
      div_lt_iff₀ (by norm_num : (0:ℚ) < 1024*(1024*(1024*1024))),
      show ((1024:ℚ) * (1024*(1024*(1024*1024)))) = ((1024 ^ 5 : ℕ) : ℚ) from by norm_num]
    exact_mod_cast Iff.rfl
  by_cases h0 : n < 1024
  · have hq : (n:ℚ) < 1024 := by exact_mod_cast h0
    rw [format_size, formatSizeGo, if_pos hq, specUnitIndex, if_pos h0]
    norm_num [unitName]
  · have hq : ¬ (n:ℚ) < 1024 := fun hc => h0 (by exact_mod_cast hc)
    rw [format_size, formatSizeGo, if_neg hq]
    by_cases h1 : n < 1024 ^ 2
    · rw [formatSizeGo, if_pos (q1.mpr h1), specUnitIndex, if_neg h0, if_pos h1]
      norm_num [unitName]
    · rw [formatSizeGo, if_neg (fun hc => h1 (q1.mp hc))]
      by_cases h2 : n < 1024 ^ 3
      · rw [formatSizeGo, if_pos (q2.mpr h2), specUnitIndex, if_neg h0, if_neg h1,
          if_pos h2]
        norm_num [unitName, div_div]
      · rw [formatSizeGo, if_neg (fun hc => h2 (q2.mp hc))]
        by_cases h3 : n < 1024 ^ 4
        · rw [formatSizeGo, if_pos (q3.mpr h3), specUnitIndex, if_neg h0, if_neg h1,
            if_neg h2, if_pos h3]
          norm_num [unitName, div_div]
        · rw [formatSizeGo, if_neg (fun hc => h3 (q3.mp hc))]
          by_cases h4 : n < 1024 ^ 5
          · rw [formatSizeGo, if_pos (q4.mpr h4), specUnitIndex, if_neg h0, if_neg h1,
              if_neg h2, if_neg h3, if_pos h4]
            norm_num [unitName, div_div]
          · rw [formatSizeGo, if_neg (fun hc => h4 (q4.mp hc)), formatSizeGo,
              specUnitIndex, if_neg h0, if_neg h1, if_neg h2, if_neg h3, if_neg h4]
            norm_num [unitName, div_div]
            rw [String.append_assoc]
            congr 1

/-- C8: `format_size` maps 500 to "500.00 B", 2048 to "2.00 KB", 1048576
to "1.00 MB" and 3221225472 to "3.00 GB"; and in general, for every
non-negative size it picks the first unit among B, KB, MB, GB, TB, PB at
which the displayed value `size / 1024^k` drops below 1024 (PB being
unbounded) and renders that value with two decimal places followed by the
unit name. -/
theorem C8_format_size_units :
    format_size 500 = "500.00 B" ∧ format_size 2048 = "2.00 KB" ∧
      format_size 1048576 = "1.00 MB" ∧ format_size 3221225472 = "3.00 GB" ∧
      ∀ n : ℕ, format_size (n : ℚ) =
        fmt2 ((n : ℚ) / 1024 ^ specUnitIndex n) ++ " " ++ unitName (specUnitIndex n) := by
  refine ⟨?_, ?_, ?_, ?_, formatSize_spec⟩
  · rw [format_size, formatSizeGo, if_pos (by norm_num : (500:ℚ) < 1024)]
    unfold fmt2
    rw [show ⌊(500:ℚ) * 100 + 1/2⌋ = (50000:ℤ) by rw [Int.floor_eq_iff]; norm_num]
    decide
  · rw [format_size, formatSizeGo, if_neg (by norm_num : ¬ (2048:ℚ) < 1024),
      formatSizeGo, if_pos (by norm_num : (2048:ℚ)/1024 < 1024)]
    unfold fmt2
    rw [show ⌊(2048:ℚ)/1024 * 100 + 1/2⌋ = (200:ℤ) by rw [Int.floor_eq_iff]; norm_num]
    decide
  · rw [format_size, formatSizeGo, if_neg (by norm_num : ¬ (1048576:ℚ) < 1024),
      formatSizeGo, if_neg (by norm_num : ¬ (1048576:ℚ)/1024 < 1024),
      formatSizeGo, if_pos (by norm_num : (1048576:ℚ)/1024/1024 < 1024)]
    unfold fmt2
    rw [show ⌊(1048576:ℚ)/1024/1024 * 100 + 1/2⌋ = (100:ℤ) by
      rw [Int.floor_eq_iff]; norm_num]
    decide
  · rw [format_size, formatSizeGo, if_neg (by norm_num : ¬ (3221225472:ℚ) < 1024),
      formatSizeGo, if_neg (by norm_num : ¬ (3221225472:ℚ)/1024 < 1024),
      formatSizeGo, if_neg (by norm_num : ¬ (3221225472:ℚ)/1024/1024 < 1024),
      formatSizeGo, if_pos (by norm_num : (3221225472:ℚ)/1024/1024/1024 < 1024)]
    unfold fmt2
    rw [show ⌊(3221225472:ℚ)/1024/1024/1024 * 100 + 1/2⌋ = (300:ℤ) by
      rw [Int.floor_eq_iff]; norm_num]
    decide
